import Mathlib

/-
Verification of the RustPass comparison core (src/main.rs) against its
natural-language specification.

The embedding translates the Rust source directly:

* `Entry` models `keepass::db::Entry` through the three accessors the program
  uses (`get_title`, `get_username`, `get_password`), each returning
  `Option String` (`None` = field absent).
* `Group` models `keepass::db::Group`: direct entries plus child groups.
* `collect_all_entries` (main.rs 194-207) builds a
  `HashMap<String, &Entry>`.  The map is embedded as an association list
  with unique keys; `insertEntry` is `HashMap::insert` (replace any previous
  binding for the key), `extendEntries` is `HashMap::extend`.  The *content*
  of a `std::collections::HashMap` is fully determined by the inserts, but
  its iteration order is unspecified (and randomized per map instance), so
  theorems about iteration order quantify over all permutations of the
  association list; the list produced by `collect_all_entries` is one
  canonical bookkeeping order.
* `compareIndexes` (the two `for` loops of `compare_databases`,
  main.rs 139-191) takes the two maps in whatever iteration order the hash
  map presents them, and pushes `DifferenceInfo` records into a single
  accumulator, first loop then second loop.
* `count_entries` / `count_group_entries` (main.rs 113-129).
* `sync_databases` (main.rs 74-104): file IO and decryption
  (`open_database`) are external collaborators; the two `Except` arguments
  stand for the outcomes of the two `open_database` calls.
-/

set_option maxHeartbeats 1000000

namespace RustPass

/-- An entry of a KeePass database, seen through the accessors used by the
program: `get_title`, `get_username`, `get_password`, each `Option<&str>`
(`none` = the field is absent from the entry). -/
structure Entry where
  title : Option String
  username : Option String
  password : Option String
deriving DecidableEq

/-- A KeePass group: its direct entries and its child groups
(`keepass::db::Group` through `entries()` and `groups()`). -/
inductive Group where
  | mk (entries : List Entry) (groups : List Group)

/-- `group.entries()`. -/
def Group.entries : Group → List Entry
  | .mk es _ => es

/-- `group.groups()`. -/
def Group.groups : Group → List Group
  | .mk _ gs => gs

/-- A decrypted database exposing its root group (`Database.root`). -/
structure Database where
  root : Group

/-- `enum DifferenceType` (main.rs 38-44).  `PasswordDiffers` carries no
payload. -/
inductive DifferenceType where
  | OnlyInOne
  | OnlyInTwo
  | UsernameDiffers (username1 : String) (username2 : String)
  | PasswordDiffers
deriving DecidableEq

/-- `struct DifferenceInfo` (main.rs 31-36). -/
structure DifferenceInfo where
  title : String
  username : String
  diff_type : DifferenceType
deriving DecidableEq

/-- The key an entry is indexed under:
`entry.get_title().unwrap_or("(no title)")` (main.rs 198, also 150/159/166/180). -/
def entryKey (e : Entry) : String := e.title.getD "(no title)"

/-- The `HashMap<String, &Entry>` content, as an association list. -/
abbrev EntryMap := List (String × Entry)

/-- `map.get(key)`. -/
def lookupKey (m : EntryMap) (k : String) : Option Entry :=
  (m.find? (fun p => p.1 == k)).map Prod.snd

/-- `map.contains_key(key)`. -/
def containsKey (m : EntryMap) (k : String) : Bool :=
  m.any (fun p => p.1 == k)

/-- `map.insert(k, e)`: any previous binding of `k` is replaced. -/
def insertEntry (m : EntryMap) (k : String) (e : Entry) : EntryMap :=
  m.filter (fun p => !(p.1 == k)) ++ [(k, e)]

/-- The first loop of `collect_all_entries` (main.rs 197-200): insert every
direct entry under its key. -/
def insertEntries (m : EntryMap) (es : List Entry) : EntryMap :=
  es.foldl (fun acc e => insertEntry acc (entryKey e) e) m

/-- `entries.extend(other_map)` (main.rs 203): insert every binding of the
other map. -/
def extendEntries (m m2 : EntryMap) : EntryMap :=
  m2.foldl (fun acc p => insertEntry acc p.1 p.2) m

mutual

/-- `collect_all_entries` (main.rs 194-207): index the direct entries, then
extend with each child group's index, in child order. -/
def collect_all_entries : Group → EntryMap
  | Group.mk es gs => collectChildGroups (insertEntries [] es) gs

/-- The `for child_group in group.groups()` loop of `collect_all_entries`
(main.rs 202-204). -/
def collectChildGroups : EntryMap → List Group → EntryMap
  | acc, [] => acc
  | acc, g :: gs => collectChildGroups (extendEntries acc (collect_all_entries g)) gs

end

/-- The body of the first loop of `compare_databases` (main.rs 139-175):
the record (if any) pushed for the binding `p` of the first map. -/
def check1 (entries2 : EntryMap) (p : String × Entry) : Option DifferenceInfo :=
  match lookupKey entries2 p.1 with
  | some entry2 =>
    let username1 := p.2.username.getD ""
    let username2 := entry2.username.getD ""
    let pass1 := p.2.password.getD ""
    let pass2 := entry2.password.getD ""
    if username1 ≠ username2 then
      some { title := entryKey p.2, username := username1,
             diff_type := DifferenceType.UsernameDiffers username1 username2 }
    else if pass1 ≠ pass2 then
      some { title := entryKey p.2, username := username1,
             diff_type := DifferenceType.PasswordDiffers }
    else
      none
  | none =>
    some { title := entryKey p.2, username := p.2.username.getD "",
           diff_type := DifferenceType.OnlyInOne }

/-- The body of the second loop of `compare_databases` (main.rs 178-189):
the record (if any) pushed for the binding `p` of the second map. -/
def check2 (entries1 : EntryMap) (p : String × Entry) : Option DifferenceInfo :=
  if containsKey entries1 p.1 then none
  else
    some { title := entryKey p.2, username := p.2.username.getD "",
           diff_type := DifferenceType.OnlyInTwo }

/-- The first `for (key, entry1) in &entries1` loop, pushing into the
`differences` vector `acc`. -/
def checkFirstLoop (entries2 : EntryMap) (acc : List DifferenceInfo) :
    EntryMap → List DifferenceInfo
  | [] => acc
  | p :: rest =>
    match check1 entries2 p with
    | some d => checkFirstLoop entries2 (acc ++ [d]) rest
    | none => checkFirstLoop entries2 acc rest

/-- The second `for (key, entry2) in &entries2` loop, pushing into the same
`differences` vector. -/
def checkSecondLoop (entries1 : EntryMap) (acc : List DifferenceInfo) :
    EntryMap → List DifferenceInfo
  | [] => acc
  | p :: rest =>
    match check2 entries1 p with
    | some d => checkSecondLoop entries1 (acc ++ [d]) rest
    | none => checkSecondLoop entries1 acc rest

/-- `compare_databases` (main.rs 131-192) after the two maps have been
built, taking the maps in the iteration order the hash map presents them:
run the first loop, then the second, on one shared accumulator. -/
def compareIndexes (entries1 entries2 : EntryMap) : List DifferenceInfo :=
  checkSecondLoop entries1 (checkFirstLoop entries2 [] entries1) entries2

/-- `compare_databases` (main.rs 131-192), with the canonical association
lists standing for the two hash maps. -/
def compare_databases (db1 db2 : Database) : List DifferenceInfo :=
  compareIndexes (collect_all_entries db1.root) (collect_all_entries db2.root)

mutual

/-- `count_group_entries` (main.rs 122-129). -/
def count_group_entries : Group → Nat
  | Group.mk es gs => es.length + countGroupsEntries gs

/-- `group.groups().iter().map(count_group_entries).sum()`. -/
def countGroupsEntries : List Group → Nat
  | [] => 0
  | g :: gs => count_group_entries g + countGroupsEntries gs

end

/-- `count_entries` (main.rs 113-120). -/
def count_entries (db : Database) : Nat :=
  db.root.entries.length + countGroupsEntries db.root.groups

/-- `struct RustPassApp` (main.rs 22-29). -/
structure RustPassApp where
  database1_path : String
  database1_pass : String
  database2_path : String
  database2_pass : String
  status_message : String
  differences : List DifferenceInfo

/-- `sync_databases` (main.rs 74-104).  Opening and decrypting the two files
(`open_database`) is external IO; `open1` and `open2` are the outcomes of
the two `open_database` calls (`Except.error` carries the formatted cause
string produced at main.rs 107/110). -/
def sync_databases (app : RustPassApp) (open1 open2 : Except String Database) :
    RustPassApp :=
  let app0 := { app with status_message := "Decrypting databases..." }
  match open1 with
  | Except.error e => { app0 with status_message := "Error opening first database: " ++ e }
  | Except.ok db1 =>
    match open2 with
    | Except.error e => { app0 with status_message := "Error opening second database: " ++ e }
    | Except.ok db2 =>
      let diffs := compare_databases db1 db2
      { app0 with
        differences := diffs,
        status_message := "Successfully compared databases!\nDatabase 1: "
          ++ toString (count_entries db1) ++ " entries\nDatabase 2: "
          ++ toString (count_entries db2) ++ " entries\nDifferences found: "
          ++ toString diffs.length }

/- Specification-side definitions (from the spec's own words), used to state
the claims about traversal order and full-tree counts. -/

mutual

/-- Modelled from the spec: the depth-first, pre-order,
entries-before-subgroups traversal of all entries of a tree (spec section 4.1). -/
def allEntriesDFS : Group → List Entry
  | Group.mk es gs => es ++ allEntriesDFSList gs

/-- DFS entries of a list of sibling groups, in child order. -/
def allEntriesDFSList : List Group → List Entry
  | [] => []
  | g :: gs => allEntriesDFS g ++ allEntriesDFSList gs

end

mutual

/-- Modelled from the spec: a group together with all its descendant
groups (spec section 8, count invariant). -/
def allGroups : Group → List Group
  | Group.mk es gs => Group.mk es gs :: allGroupsList gs

/-- All groups reachable from a list of sibling groups. -/
def allGroupsList : List Group → List Group
  | [] => []
  | g :: gs => allGroups g ++ allGroupsList gs

end

/-- The keys of the association list are pairwise distinct (true of every
hash map). -/
def nodupKeys (m : EntryMap) : Prop := (m.map Prod.fst).Nodup

/-- Every binding of the map binds an entry under that entry's own key
(true of every map built by `collect_all_entries`). -/
def keysWF (m : EntryMap) : Prop := ∀ p ∈ m, p.1 = entryKey p.2

/-- A well-formed entry index: distinct keys, each entry bound under its own
key. -/
def WFIndex (m : EntryMap) : Prop := nodupKeys m ∧ keysWF m

/-- The output records concerning the key `k` (each emitted record's `title`
is the binding's key, so this selects the records emitted for `k`). -/
def recordsFor (ds : List DifferenceInfo) (k : String) : List DifferenceInfo :=
  ds.filter (fun d => d.title == k)

/-- Pointwise agreement of two maps on keys, titles and usernames, leaving
the passwords unconstrained (used for the password non-leakage claim). -/
def titlesUsernamesAgree (m m' : EntryMap) : Prop :=
  List.Forall₂
    (fun p q => p.1 = q.1 ∧ p.2.title = q.2.title ∧ p.2.username = q.2.username) m m'

example : entryKey { title := some "Bank", username := none, password := none } = "Bank" := rfl

example : entryKey { title := none, username := none, password := none } = "(no title)" := rfl

example : entryKey { title := some "", username := none, password := none } = "" := rfl

/- ------------------------------------------------------------------ -/
/- Association-list lemmas for the hash-map embedding.                 -/
/- ------------------------------------------------------------------ -/

theorem find?_filter_of_imp {α : Type} (l : List α) (p q : α → Bool)
    (h : ∀ x, p x = true → q x = true) :
    (l.filter q).find? p = l.find? p := by
  induction l with
  | nil => rfl
  | cons a t ih =>
    cases hq : q a with
    | false =>
      have hp : p a = false := by
        cases hpa : p a
        · rfl
        · rw [h a hpa] at hq; cases hq
      simp [List.filter_cons, hq, List.find?_cons, hp, ih]
    | true =>
      cases hpa : p a <;> simp [List.filter_cons, hq, List.find?_cons, hpa, ih]

theorem lookup_insertEntry (m : EntryMap) (k : String) (e : Entry) (k' : String) :
    lookupKey (insertEntry m k e) k' = if k' = k then some e else lookupKey m k' := by
  unfold lookupKey insertEntry
  rw [List.find?_append]
  by_cases h : k' = k
  · subst h
    have h1 : (m.filter (fun p => !(p.1 == k'))).find? (fun p => p.1 == k') = none := by
      rw [List.find?_eq_none]
      intro p hp
      have h2 := (List.mem_filter.mp hp).2
      simp only [Bool.not_eq_true'] at h2
      simp [h2]
    simp [h1]
  · have hke : (k == k') = false := by
      rw [beq_eq_false_iff_ne]
      exact fun hk => h hk.symm
    have h1 : List.find? (fun p => p.1 == k') [(k, e)] = none := by
      simp [List.find?_cons, hke]
    have h2 : (m.filter (fun p => !(p.1 == k))).find? (fun p => p.1 == k') = m.find? (fun p => p.1 == k') := by
      apply find?_filter_of_imp
      intro x hx
      have hx' : x.1 = k' := by simpa using hx
      simp [hx', h]
    rw [h1, h2, Option.or_none, if_neg h]

theorem lookup_foldl_insert (ps : List (String × Entry)) (m : EntryMap) (k : String) :
    lookupKey (ps.foldl (fun acc p => insertEntry acc p.1 p.2) m) k
      = ((ps.reverse.find? (fun p => p.1 == k)).map Prod.snd).or (lookupKey m k) := by
  induction ps generalizing m with
  | nil => simp
  | cons p ps ih =>
    rw [List.foldl_cons, ih, List.reverse_cons, List.find?_append]
    cases hf : ps.reverse.find? (fun q => q.1 == k) with
    | some q => simp [hf, Option.or]
    | none =>
      rw [lookup_insertEntry]
      by_cases h : k = p.1
      · simp [hf, List.find?_cons, h, Option.or]
      · have : (p.1 == k) = false := by simp; exact fun hk => h hk.symm
        simp [hf, List.find?_cons, this, Option.or, h]

theorem lookup_extendEntries (m m2 : EntryMap) (k : String) :
    lookupKey (extendEntries m m2) k
      = ((m2.reverse.find? (fun p => p.1 == k)).map Prod.snd).or (lookupKey m k) :=
  lookup_foldl_insert m2 m k

theorem insertEntries_eq_extend (m : EntryMap) (es : List Entry) :
    insertEntries m es = extendEntries m (es.map (fun e => (entryKey e, e))) := by
  unfold insertEntries extendEntries
  rw [List.foldl_map]

theorem lookup_insertEntries (m : EntryMap) (es : List Entry) (k : String) :
    lookupKey (insertEntries m es) k
      = (es.reverse.find? (fun e => entryKey e == k)).or (lookupKey m k) := by
  rw [insertEntries_eq_extend, lookup_extendEntries]
  rw [← List.map_reverse, List.find?_map]
  congr 1
  cases hf : es.reverse.find? ((fun p => p.1 == k) ∘ fun e => (entryKey e, e)) with
  | none => simp [hf]; rw [← hf]; rfl
  | some e => simp [hf]; rw [show es.reverse.find? (fun e => entryKey e == k) = some e from hf]

theorem nodupKeys_insertEntry (m : EntryMap) (k : String) (e : Entry)
    (h : nodupKeys m) : nodupKeys (insertEntry m k e) := by
  unfold nodupKeys insertEntry at *
  rw [List.map_append]
  apply List.Nodup.append
  · exact ((List.filter_sublist m).map Prod.fst).nodup h
  · simp
  · intro a ha hb
    simp at hb
    subst hb
    obtain ⟨p, hp, hpk⟩ := List.mem_map.mp ha
    have h2 := (List.mem_filter.mp hp).2
    simp only [Bool.not_eq_true'] at h2
    rw [hpk] at h2
    simp at h2

theorem nodupKeys_foldl_insert (ps : List (String × Entry)) (m : EntryMap)
    (h : nodupKeys m) :
    nodupKeys (ps.foldl (fun acc p => insertEntry acc p.1 p.2) m) := by
  induction ps generalizing m with
  | nil => exact h
  | cons p ps ih => exact ih _ (nodupKeys_insertEntry _ _ _ h)

theorem mem_insertEntry {p : String × Entry} {m : EntryMap} {k : String} {e : Entry}
    (h : p ∈ insertEntry m k e) : p = (k, e) ∨ p ∈ m := by
  unfold insertEntry at h
  rcases List.mem_append.mp h with h | h
  · exact Or.inr (List.mem_filter.mp h).1
  · exact Or.inl (List.mem_singleton.mp h)

theorem keysWF_foldl_insert (ps : List (String × Entry)) (m : EntryMap)
    (hm : keysWF m) (hps : ∀ p ∈ ps, p.1 = entryKey p.2) :
    keysWF (ps.foldl (fun acc p => insertEntry acc p.1 p.2) m) := by
  induction ps generalizing m with
  | nil => exact hm
  | cons p ps ih =>
    refine ih _ ?_ (fun q hq => hps q (List.mem_cons_of_mem _ hq))
    intro q hq
    rcases mem_insertEntry hq with h | h
    · subst h; exact hps p (List.mem_cons_self _ _)
    · exact hm q h

theorem lookupKey_some_mem {m : EntryMap} {k : String} {e : Entry}
    (h : lookupKey m k = some e) : (k, e) ∈ m := by
  unfold lookupKey at h
  cases hf : m.find? (fun p => p.1 == k) with
  | none => rw [hf] at h; cases h
  | some p =>
    rw [hf] at h
    have h1 : p.1 = k := by simpa using List.find?_some hf
    have h2 := List.mem_of_find?_eq_some hf
    have h3 : p = (k, e) := by
      obtain ⟨p1, p2⟩ := p
      simp at h h1
      rw [h1, h]
    rwa [h3] at h2

theorem eq_of_mem_nodupKeys {m : EntryMap} (h : nodupKeys m) {p q : String × Entry}
    (hp : p ∈ m) (hq : q ∈ m) (hk : p.1 = q.1) : p = q := by
  induction m with
  | nil => cases hp
  | cons a t ih =>
    unfold nodupKeys at h
    rw [List.map_cons, List.nodup_cons] at h
    rcases List.mem_cons.mp hp with hp1 | hp1 <;> rcases List.mem_cons.mp hq with hq1 | hq1
    · rw [hp1, hq1]
    · exfalso
      apply h.1
      rw [hp1] at hk
      rw [hk]
      exact List.mem_map_of_mem Prod.fst hq1
    · exfalso
      apply h.1
      rw [hq1] at hk
      rw [← hk]
      exact List.mem_map_of_mem Prod.fst hp1
    · exact ih h.2 hp1 hq1

theorem lookupKey_eq_some_of_mem {m : EntryMap} (h : nodupKeys m) {k : String} {e : Entry}
    (hm : (k, e) ∈ m) : lookupKey m k = some e := by
  cases hf : m.find? (fun p => p.1 == k) with
  | none =>
    rw [List.find?_eq_none] at hf
    exact absurd (by simp : (((k, e).1 == k) = true)) (hf _ hm)
  | some p =>
    have h1 : p.1 = k := by simpa using List.find?_some hf
    have h2 := List.mem_of_find?_eq_some hf
    have h3 : p = (k, e) := eq_of_mem_nodupKeys h h2 hm (by simp [h1])
    unfold lookupKey
    rw [hf, h3]
    rfl

theorem lookupKey_eq_none_iff (m : EntryMap) (k : String) :
    lookupKey m k = none ↔ ∀ p ∈ m, p.1 ≠ k := by
  unfold lookupKey
  rw [Option.map_eq_none']
  rw [List.find?_eq_none]
  constructor
  · intro h p hp
    have := h p hp
    simpa using this
  · intro h p hp
    simpa using h p hp

theorem containsKey_eq_isSome (m : EntryMap) (k : String) :
    containsKey m k = (lookupKey m k).isSome := by
  unfold containsKey lookupKey
  induction m with
  | nil => rfl
  | cons p t ih =>
    cases hp : (p.1 == k) <;> simp [List.any_cons, List.find?_cons, hp, ih]

theorem find?_key_reverse {m : EntryMap} (h : nodupKeys m) (k : String) :
    m.reverse.find? (fun p => p.1 == k) = m.find? (fun p => p.1 == k) := by
  cases hf : m.find? (fun p => p.1 == k) with
  | none =>
    rw [List.find?_eq_none] at hf ⊢
    intro p hp
    exact hf p (List.mem_reverse.mp hp)
  | some p =>
    cases hg : m.reverse.find? (fun q => q.1 == k) with
    | none =>
      rw [List.find?_eq_none] at hg
      exact absurd (List.find?_some hf)
        (hg p (List.mem_reverse.mpr (List.mem_of_find?_eq_some hf)))
    | some q =>
      have g2 := List.mem_reverse.mp (List.mem_of_find?_eq_some hg)
      have hq1 : q.1 = k := by simpa using List.find?_some hg
      have hp1 : p.1 = k := by simpa using List.find?_some hf
      rw [eq_of_mem_nodupKeys h g2 (List.mem_of_find?_eq_some hf) (by rw [hq1, hp1])]

/- ------------------------------------------------------------------ -/
/- Characterization of collect_all_entries.                            -/
/- ------------------------------------------------------------------ -/

/-- The full specification of the flattened index of a tree: the keys are
distinct, each entry sits under its own key, and looking up a key returns
the last entry with that key in depth-first, pre-order,
entries-before-subgroups traversal order. -/
def CollectSpec (g : Group) : Prop :=
  nodupKeys (collect_all_entries g) ∧ keysWF (collect_all_entries g) ∧
  ∀ k, lookupKey (collect_all_entries g) k
      = (allEntriesDFS g).reverse.find? (fun e => entryKey e == k)

theorem collectChildGroups_spec (gs : List Group)
    (IH : ∀ g ∈ gs, CollectSpec g) :
    ∀ acc : EntryMap, nodupKeys acc → keysWF acc →
    nodupKeys (collectChildGroups acc gs) ∧ keysWF (collectChildGroups acc gs) ∧
    ∀ k, lookupKey (collectChildGroups acc gs) k
        = ((allEntriesDFSList gs).reverse.find? (fun e => entryKey e == k)).or
            (lookupKey acc k) := by
  induction gs with
  | nil =>
    intro acc hnd hwf
    refine ⟨hnd, hwf, fun k => ?_⟩
    simp [collectChildGroups, allEntriesDFSList]
  | cons g gs ihl =>
    intro acc hnd hwf
    obtain ⟨gnd, gwf, glook⟩ := IH g (List.mem_cons_self _ _)
    have hnd' : nodupKeys (extendEntries acc (collect_all_entries g)) :=
      nodupKeys_foldl_insert _ _ hnd
    have hwf' : keysWF (extendEntries acc (collect_all_entries g)) :=
      keysWF_foldl_insert _ _ hwf gwf
    obtain ⟨nd2, wf2, look2⟩ :=
      ihl (fun g' h => IH g' (List.mem_cons_of_mem _ h)) _ hnd' hwf'
    refine ⟨nd2, wf2, fun k => ?_⟩
    rw [show collectChildGroups acc (g :: gs)
          = collectChildGroups (extendEntries acc (collect_all_entries g)) gs from rfl]
    rw [look2 k, lookup_extendEntries, find?_key_reverse gnd]
    rw [show ((collect_all_entries g).find? (fun p => p.1 == k)).map Prod.snd
          = lookupKey (collect_all_entries g) k from rfl]
    rw [glook k]
    rw [show allEntriesDFSList (g :: gs) = allEntriesDFS g ++ allEntriesDFSList gs from rfl]
    rw [List.reverse_append, List.find?_append, Option.or_assoc]

theorem collect_spec : ∀ g : Group, CollectSpec g
  | Group.mk es gs => by
    have IH : ∀ g' ∈ gs, CollectSpec g' := fun g' h => collect_spec g'
    have base_nd : nodupKeys (insertEntries [] es) := by
      rw [insertEntries_eq_extend]
      exact nodupKeys_foldl_insert _ _ (by simp [nodupKeys])
    have base_wf : keysWF (insertEntries [] es) := by
      rw [insertEntries_eq_extend]
      refine keysWF_foldl_insert _ _ (by intro p hp; cases hp) ?_
      intro p hp
      obtain ⟨e, _, rfl⟩ := List.mem_map.mp hp
      rfl
    obtain ⟨nd, wf, look⟩ := collectChildGroups_spec gs IH _ base_nd base_wf
    refine ⟨nd, wf, fun k => ?_⟩
    rw [show collect_all_entries (Group.mk es gs)
          = collectChildGroups (insertEntries [] es) gs from rfl]
    rw [look k, lookup_insertEntries]
    rw [show lookupKey [] k = none from rfl, Option.or_none]
    rw [show allEntriesDFS (Group.mk es gs) = es ++ allEntriesDFSList gs from rfl]
    rw [List.reverse_append, List.find?_append]
termination_by g => sizeOf g
decreasing_by
  have := List.sizeOf_lt_of_mem h
  simp only [Group.mk.sizeOf_spec]
  omega

/-- The index built for any tree is well formed: distinct keys, and every
entry is bound under its own `entryKey`. -/
theorem WFIndex_collect (g : Group) : WFIndex (collect_all_entries g) :=
  ⟨(collect_spec g).1, (collect_spec g).2.1⟩

/- ------------------------------------------------------------------ -/
/- Characterization of the two comparison loops.                       -/
/- ------------------------------------------------------------------ -/

theorem checkFirstLoop_eq (entries2 : EntryMap) (l : EntryMap)
    (acc : List DifferenceInfo) :
    checkFirstLoop entries2 acc l = acc ++ l.filterMap (check1 entries2) := by
  induction l generalizing acc with
  | nil => simp [checkFirstLoop]
  | cons p rest ih =>
    cases hc : check1 entries2 p with
    | some d =>
      simp only [checkFirstLoop, hc, List.filterMap_cons]
      rw [ih, List.append_assoc]
      rfl
    | none =>
      simp only [checkFirstLoop, hc, List.filterMap_cons]
      exact ih acc

theorem checkSecondLoop_eq (entries1 : EntryMap) (l : EntryMap)
    (acc : List DifferenceInfo) :
    checkSecondLoop entries1 acc l = acc ++ l.filterMap (check2 entries1) := by
  induction l generalizing acc with
  | nil => simp [checkSecondLoop]
  | cons p rest ih =>
    cases hc : check2 entries1 p with
    | some d =>
      simp only [checkSecondLoop, hc, List.filterMap_cons]
      rw [ih, List.append_assoc]
      rfl
    | none =>
      simp only [checkSecondLoop, hc, List.filterMap_cons]
      exact ih acc

theorem compareIndexes_eq (entries1 entries2 : EntryMap) :
    compareIndexes entries1 entries2
      = entries1.filterMap (check1 entries2) ++ entries2.filterMap (check2 entries1) := by
  unfold compareIndexes
  rw [checkFirstLoop_eq, checkSecondLoop_eq, List.nil_append]

/-- Every record the first loop emits for a binding carries that binding's
entry's key as its title. -/
theorem check1_title {entries2 : EntryMap} {p : String × Entry} {d : DifferenceInfo}
    (h : check1 entries2 p = some d) : d.title = entryKey p.2 := by
  unfold check1 at h
  cases hl : lookupKey entries2 p.1 with
  | some e2 =>
    rw [hl] at h
    simp only at h
    split at h
    · cases h; rfl
    · split at h
      · cases h; rfl
      · cases h
  | none =>
    rw [hl] at h
    cases h
    rfl

/-- The first loop never emits an `OnlyInTwo` record. -/
theorem check1_not_onlyInTwo {entries2 : EntryMap} {p : String × Entry} {d : DifferenceInfo}
    (h : check1 entries2 p = some d) : d.diff_type ≠ DifferenceType.OnlyInTwo := by
  unfold check1 at h
  cases hl : lookupKey entries2 p.1 with
  | some e2 =>
    rw [hl] at h
    simp only at h
    split at h
    · cases h; simp
    · split at h
      · cases h; simp
      · cases h
  | none =>
    rw [hl] at h
    cases h
    simp

/-- Every record the second loop emits carries the binding's entry key as its
title and is an `OnlyInTwo` record. -/
theorem check2_spec {entries1 : EntryMap} {p : String × Entry} {d : DifferenceInfo}
    (h : check2 entries1 p = some d) :
    d.title = entryKey p.2 ∧ d.diff_type = DifferenceType.OnlyInTwo := by
  unfold check2 at h
  split at h
  · cases h
  · cases h
    exact ⟨rfl, rfl⟩

/- ------------------------------------------------------------------ -/
/- Records emitted for a single key.                                   -/
/- ------------------------------------------------------------------ -/

theorem recordsFor_append (a b : List DifferenceInfo) (k : String) :
    recordsFor (a ++ b) k = recordsFor a k ++ recordsFor b k :=
  List.filter_append a b

theorem recordsFor_filterMap_of_none {ix : EntryMap}
    (f : String × Entry → Option DifferenceInfo)
    (hf : ∀ p d, f p = some d → d.title = entryKey p.2)
    (hwf : keysWF ix) {k : String}
    (hl : lookupKey ix k = none) :
    recordsFor (ix.filterMap f) k = [] := by
  unfold recordsFor
  rw [List.filter_eq_nil_iff]
  intro d hd
  obtain ⟨p, hp, hc⟩ := List.mem_filterMap.mp hd
  have ht := hf p d hc
  have hk := hwf p hp
  have hne := (lookupKey_eq_none_iff ix k).mp hl p hp
  rw [ht, ← hk]
  simp [hne]

theorem recordsFor_filterMap_of_lookup {ix : EntryMap}
    (f : String × Entry → Option DifferenceInfo)
    (hf : ∀ p d, f p = some d → d.title = entryKey p.2)
    (hnd : nodupKeys ix) (hwf : keysWF ix) {k : String} {e : Entry}
    (hl : lookupKey ix k = some e) :
    recordsFor (ix.filterMap f) k = (f (k, e)).toList := by
  induction ix with
  | nil => cases hl
  | cons p t ih =>
    have hpk := hwf p (List.mem_cons_self _ _)
    have hnd' : nodupKeys t := by
      unfold nodupKeys at hnd ⊢
      rw [List.map_cons, List.nodup_cons] at hnd
      exact hnd.2
    have hwf' : keysWF t := fun q hq => hwf q (List.mem_cons_of_mem _ hq)
    by_cases hk : p.1 = k
    · have he : e = p.2 := by
        have hh : lookupKey (p :: t) k = some p.2 := by
          unfold lookupKey
          rw [List.find?_cons]
          simp [hk]
        rw [hh] at hl
        exact (Option.some_inj.mp hl).symm
      have hpe : p = (k, e) := by
        obtain ⟨p1, p2⟩ := p
        simp only at hk he
        rw [hk, he]
      have htail : recordsFor (t.filterMap f) k = [] := by
        apply recordsFor_filterMap_of_none f hf hwf'
        rw [lookupKey_eq_none_iff]
        intro q hq hqk
        unfold nodupKeys at hnd
        rw [List.map_cons, List.nodup_cons] at hnd
        apply hnd.1
        rw [hk, ← hqk]
        exact List.mem_map_of_mem Prod.fst hq
      rw [List.filterMap_cons]
      cases hc : f p with
      | none =>
        rw [← hpe, hc]
        exact htail
      | some d =>
        have hd : (d.title == k) = true := by
          rw [hf p d hc, ← hpk, hk]
          simp
        unfold recordsFor at htail ⊢
        rw [List.filter_cons, if_pos hd, htail, ← hpe, hc]
        rfl
    · have hl' : lookupKey t k = some e := by
        unfold lookupKey at hl ⊢
        rw [List.find?_cons] at hl
        have : (p.1 == k) = false := by simp [hk]
        rw [this] at hl
        exact hl
      rw [List.filterMap_cons]
      cases hc : f p with
      | none => exact ih hnd' hwf' hl'
      | some d =>
        have hd : (d.title == k) = false := by
          rw [hf p d hc, ← hpk]
          simp [hk]
        unfold recordsFor at ih ⊢
        rw [List.filter_cons, if_neg (by simp [hd])]
        exact ih hnd' hwf' hl'

/- ------------------------------------------------------------------ -/
/- Claim theorems C4 - C8.                                             -/
/- ------------------------------------------------------------------ -/

/-- Claim C4: for every key present in both indexes, at most one Difference
is emitted for that key, username-divergence taking priority: if the
usernames (empty-string fallback) differ, exactly one
`UsernameDiffers{username1, username2}` is emitted and the passwords play no
role in the output; if the usernames are equal and the passwords
(empty-string fallback) differ, exactly one `PasswordDiffers` is emitted;
if both agree, nothing is emitted for that key. -/
theorem matched_key_single_difference (ix1 ix2 : EntryMap) (k : String)
    (e1 e2 : Entry) (h1 : WFIndex ix1) (h2 : WFIndex ix2)
    (hl1 : lookupKey ix1 k = some e1) (hl2 : lookupKey ix2 k = some e2) :
    recordsFor (compareIndexes ix1 ix2) k =
      if e1.username.getD "" ≠ e2.username.getD "" then
        [{ title := k, username := e1.username.getD "",
           diff_type := DifferenceType.UsernameDiffers (e1.username.getD "")
             (e2.username.getD "") }]
      else if e1.password.getD "" ≠ e2.password.getD "" then
        [{ title := k, username := e1.username.getD "",
           diff_type := DifferenceType.PasswordDiffers }]
      else [] := by
  have hk1 : k = entryKey e1 := h1.2 _ (lookupKey_some_mem hl1)
  have hcont : containsKey ix1 k = true := by
    rw [containsKey_eq_isSome, hl1]
    rfl
  rw [compareIndexes_eq, recordsFor_append]
  rw [recordsFor_filterMap_of_lookup (check1 ix2)
        (fun p d h => check1_title h) h1.1 h1.2 hl1]
  rw [recordsFor_filterMap_of_lookup (check2 ix1)
        (fun p d h => (check2_spec h).1) h2.1 h2.2 hl2]
  rw [show check2 ix1 (k, e2) = none from by unfold check2; rw [hcont]; rfl]
  unfold check1
  simp only [hl2]
  by_cases hu : e1.username.getD "" = e2.username.getD ""
  · by_cases hp : e1.password.getD "" = e2.password.getD ""
    · simp [hu, hp]
    · simp [hu, hp, ← hk1]
  · simp [hu, ← hk1]

/-- Claim C5: for every key present in exactly one of the two indexes,
exactly one Difference is emitted for that key; it is `OnlyInOne` when the
key is only in the first index and `OnlyInTwo` when it is only in the
second, carrying that side's username (empty-string fallback), and no
`UsernameDiffers`/`PasswordDiffers` record is emitted for the key. -/
theorem unmatched_key_single_difference (ix1 ix2 : EntryMap) (k : String)
    (h1 : WFIndex ix1) (h2 : WFIndex ix2) :
    (∀ e1, lookupKey ix1 k = some e1 → lookupKey ix2 k = none →
      recordsFor (compareIndexes ix1 ix2) k =
        [{ title := k, username := e1.username.getD "",
           diff_type := DifferenceType.OnlyInOne }])
    ∧ (∀ e2, lookupKey ix2 k = some e2 → lookupKey ix1 k = none →
      recordsFor (compareIndexes ix1 ix2) k =
        [{ title := k, username := e2.username.getD "",
           diff_type := DifferenceType.OnlyInTwo }]) := by
  constructor
  · intro e1 hl1 hl2
    have hk1 : k = entryKey e1 := h1.2 _ (lookupKey_some_mem hl1)
    rw [compareIndexes_eq, recordsFor_append]
    rw [recordsFor_filterMap_of_lookup (check1 ix2)
          (fun p d h => check1_title h) h1.1 h1.2 hl1]
    rw [recordsFor_filterMap_of_none (check2 ix1)
          (fun p d h => (check2_spec h).1) h2.2 hl2]
    unfold check1
    simp only [hl2]
    simp [← hk1]
  · intro e2 hl2 hl1
    have hk2 : k = entryKey e2 := h2.2 _ (lookupKey_some_mem hl2)
    have hcont : containsKey ix1 k = false := by
      rw [containsKey_eq_isSome, hl1]
      rfl
    rw [compareIndexes_eq, recordsFor_append]
    rw [recordsFor_filterMap_of_none (check1 ix2)
          (fun p d h => check1_title h) h1.2 hl1]
    rw [recordsFor_filterMap_of_lookup (check2 ix1)
          (fun p d h => (check2_spec h).1) h2.1 h2.2 hl2]
    unfold check2
    simp only [hcont]
    simp [← hk2]

/-- Claim C6: the flattened index maps a key to an entry iff some entry of
the tree (at any depth) has that key, and the indexed entry is the
last-encountered one in depth-first, pre-order, entries-before-subgroups
traversal order (last-write-wins). -/
theorem index_last_write_wins (g : Group) (k : String) :
    lookupKey (collect_all_entries g) k
        = (allEntriesDFS g).reverse.find? (fun e => entryKey e == k)
    ∧ ((lookupKey (collect_all_entries g) k).isSome
        ↔ ∃ e ∈ allEntriesDFS g, entryKey e = k) := by
  refine ⟨(collect_spec g).2.2 k, ?_⟩
  rw [(collect_spec g).2.2 k]
  rw [List.find?_isSome]
  constructor
  · rintro ⟨e, he, hp⟩
    exact ⟨e, List.mem_reverse.mp he, by simpa using hp⟩
  · rintro ⟨e, he, hp⟩
    exact ⟨e, List.mem_reverse.mpr he, by simpa using hp⟩

theorem countGroupsEntries_eq_aux (gs : List Group)
    (IH : ∀ g ∈ gs, count_group_entries g
            = ((allGroups g).map (fun gr => gr.entries.length)).sum) :
    countGroupsEntries gs
      = ((allGroupsList gs).map (fun gr => gr.entries.length)).sum := by
  induction gs with
  | nil => rfl
  | cons g gs ih =>
    rw [show countGroupsEntries (g :: gs)
          = count_group_entries g + countGroupsEntries gs from rfl]
    rw [IH g (List.mem_cons_self _ _),
        ih (fun g' h => IH g' (List.mem_cons_of_mem _ h))]
    rw [show allGroupsList (g :: gs) = allGroups g ++ allGroupsList gs from rfl]
    rw [List.map_append, List.sum_append]

theorem count_group_entries_eq : ∀ g : Group,
    count_group_entries g = ((allGroups g).map (fun gr => gr.entries.length)).sum
  | Group.mk es gs => by
    have IH : ∀ g' ∈ gs, count_group_entries g'
        = ((allGroups g').map (fun gr => gr.entries.length)).sum :=
      fun g' h => count_group_entries_eq g'
    rw [show count_group_entries (Group.mk es gs)
          = es.length + countGroupsEntries gs from rfl]
    rw [countGroupsEntries_eq_aux gs IH]
    rw [show allGroups (Group.mk es gs) = Group.mk es gs :: allGroupsList gs from rfl]
    rw [List.map_cons, List.sum_cons]
    rfl
termination_by g => sizeOf g
decreasing_by
  have := List.sizeOf_lt_of_mem h
  simp only [Group.mk.sizeOf_spec]
  omega

/-- Claim C7: the total entry count reported for a tree equals the sum, over
the root group and every descendant group, of that group's direct entry
count — a recursive full-tree sum that counts every entry, independent of
any duplicate-key collapsing done by the index. -/
theorem count_entries_full_tree_sum (db : Database) :
    count_entries db = ((allGroups db.root).map (fun gr => gr.entries.length)).sum := by
  obtain ⟨root⟩ := db
  cases root with
  | mk es gs =>
    have h := count_group_entries_eq (Group.mk es gs)
    rw [show count_group_entries (Group.mk es gs)
          = es.length + countGroupsEntries gs from rfl] at h
    exact h

/-- Claim C8: when opening or decrypting either database fails, the
comparison is not performed: the previous difference list is kept unchanged
(no partial results) and only the status message is updated, to a
distinguishable "Error opening first/second database: " message carrying
the human-readable cause string. -/
theorem sync_open_failure_no_partial_results (app : RustPassApp) (e : String)
    (open2 : Except String Database) (db1 : Database) :
    ((sync_databases app (Except.error e) open2).differences = app.differences
      ∧ (sync_databases app (Except.error e) open2).status_message
          = "Error opening first database: " ++ e)
    ∧ ((sync_databases app (Except.ok db1) (Except.error e)).differences = app.differences
      ∧ (sync_databases app (Except.ok db1) (Except.error e)).status_message
          = "Error opening second database: " ++ e) :=
  ⟨⟨rfl, rfl⟩, ⟨rfl, rfl⟩⟩

/- ------------------------------------------------------------------ -/
/- Claims C1 and C10: the title placeholder.                           -/
/- ------------------------------------------------------------------ -/

/-- Claim C1 counterexample: an empty (but present) title is NOT replaced by
the placeholder.  `get_title()` returns `Some("")` for an empty title, so
`unwrap_or("(no title)")` keeps `""`: an empty-titled entry is indexed under
the key `""`, not under `"(no title)"`, and a tree with two entries titled
`""` collapses under the key `""`; the key `"(no title)"` is not populated. -/
theorem empty_title_key_counterexample :
    entryKey { title := some "", username := none, password := none } = ""
    ∧ entryKey { title := none, username := none, password := none } = "(no title)"
    ∧ ("" : String) ≠ "(no title)"
    ∧ collect_all_entries
        (Group.mk [{ title := some "", username := none, password := none },
                   { title := some "", username := some "u", password := none }] [])
        = [("", { title := some "", username := some "u", password := none })]
    ∧ lookupKey (collect_all_entries
        (Group.mk [{ title := some "", username := none, password := none }] []))
        "(no title)" = none := by
  refine ⟨rfl, rfl, by decide, by decide, by decide⟩

/-- Claim C1 (amended): a missing title becomes the placeholder
`"(no title)"`, but a present title — even the empty string — is kept as
the key.  Two missing-titled entries get the same key (and collapse in one
tree, retaining the later one), whereas an empty-titled entry gets the key
`""`, which differs from the key of a missing-titled entry, so empty-titled
entries are matched only against other entries titled `""`. -/
theorem entry_key_amended (e e' : Entry) :
    (e.title = none → entryKey e = "(no title)")
    ∧ (∀ s, e.title = some s → entryKey e = s)
    ∧ (e.title = none → e'.title = none → entryKey e = entryKey e')
    ∧ (e.title = some "" → e'.title = none → entryKey e ≠ entryKey e')
    ∧ (e.title = none → e'.title = none →
        collect_all_entries (Group.mk [e, e'] []) = [("(no title)", e')]) := by
  refine ⟨?_, ?_, ?_, ?_, ?_⟩
  · intro h
    unfold entryKey
    rw [h]
    rfl
  · intro s h
    unfold entryKey
    rw [h]
    rfl
  · intro h h'
    unfold entryKey
    rw [h, h']
  · intro h h'
    unfold entryKey
    rw [h, h']
    decide
  · intro h h'
    have hk : entryKey e = "(no title)" := by unfold entryKey; rw [h]; rfl
    have hk' : entryKey e' = "(no title)" := by unfold entryKey; rw [h']; rfl
    show collectChildGroups (insertEntries [] [e, e']) [] = _
    show insertEntries [] [e, e'] = _
    unfold insertEntries
    rw [List.foldl_cons, List.foldl_cons, List.foldl_nil, hk, hk']
    unfold insertEntry
    simp

/-- Witness for `entry_key_amended`: two concrete missing-titled entries get
the same key, collapse to the later one, and an empty-titled entry's key
differs from a missing-titled entry's key. -/
theorem entry_key_amended_witness :
    collect_all_entries
        (Group.mk [{ title := none, username := some "u1", password := none },
                   { title := none, username := some "u2", password := none }] [])
      = [("(no title)", { title := none, username := some "u2", password := none })]
    ∧ entryKey { title := some "", username := none, password := none }
        ≠ entryKey { title := none, username := some "u1", password := none } :=
  ⟨(entry_key_amended { title := none, username := some "u1", password := none }
      { title := none, username := some "u2", password := none }).2.2.2.2 rfl rfl,
   (entry_key_amended { title := some "", username := none, password := none }
      { title := none, username := some "u1", password := none }).2.2.2.1 rfl rfl⟩

/-- Claim C10: an entry literally titled `"(no title)"` receives the same
key as a missing-titled entry: within one tree the two collapse to a single
binding retaining the later entry, and across the two trees they are
matched against each other (the comparison never emits an `OnlyInOne` or
`OnlyInTwo` record for them). -/
theorem literal_placeholder_collision (e1 e2 : Entry)
    (h1 : e1.title = some "(no title)") (h2 : e2.title = none) :
    entryKey e1 = entryKey e2
    ∧ collect_all_entries (Group.mk [e1, e2] []) = [("(no title)", e2)]
    ∧ ∀ d ∈ compareIndexes [("(no title)", e1)] [("(no title)", e2)],
        d.diff_type ≠ DifferenceType.OnlyInOne
          ∧ d.diff_type ≠ DifferenceType.OnlyInTwo := by
  have hk1 : entryKey e1 = "(no title)" := by unfold entryKey; rw [h1]; rfl
  have hk2 : entryKey e2 = "(no title)" := by unfold entryKey; rw [h2]; rfl
  refine ⟨hk1.trans hk2.symm, ?_, ?_⟩
  · show collectChildGroups (insertEntries [] [e1, e2]) [] = _
    show insertEntries [] [e1, e2] = _
    unfold insertEntries
    rw [List.foldl_cons, List.foldl_cons, List.foldl_nil, hk1, hk2]
    unfold insertEntry
    simp
  · intro d hd
    rw [compareIndexes_eq] at hd
    rcases List.mem_append.mp hd with hd | hd
    · obtain ⟨p, hp, hc⟩ := List.mem_filterMap.mp hd
      rw [List.mem_singleton] at hp
      subst hp
      have hlook : lookupKey [("(no title)", e2)] "(no title)" = some e2 := by
        unfold lookupKey
        simp [List.find?_cons]
      unfold check1 at hc
      rw [show (("(no title)", e1) : String × Entry).1 = "(no title)" from rfl, hlook] at hc
      simp only at hc
      split at hc
      · cases hc
        exact ⟨by simp, by simp⟩
      · split at hc
        · cases hc
          exact ⟨by simp, by simp⟩
        · cases hc
    · obtain ⟨p, hp, hc⟩ := List.mem_filterMap.mp hd
      rw [List.mem_singleton] at hp
      subst hp
      have hcont : containsKey [("(no title)", e1)] "(no title)" = true := by
        unfold containsKey
        simp
      unfold check2 at hc
      rw [show (("(no title)", e2) : String × Entry).1 = "(no title)" from rfl, hcont] at hc
      cases hc

/-- Witness for `literal_placeholder_collision` at concrete entries. -/
theorem literal_placeholder_collision_witness :
    collect_all_entries
        (Group.mk [{ title := some "(no title)", username := some "a", password := none },
                   { title := none, username := some "b", password := none }] [])
      = [("(no title)", { title := none, username := some "b", password := none })] :=
  (literal_placeholder_collision
      { title := some "(no title)", username := some "a", password := none }
      { title := none, username := some "b", password := none } rfl rfl).2.1

/-- Witness for `matched_key_single_difference` at a concrete input: same
key, different usernames, so exactly one `UsernameDiffers` record. -/
theorem matched_key_single_difference_witness :
    recordsFor (compareIndexes
        [("Bank", { title := some "Bank", username := some "alice", password := some "p1" })]
        [("Bank", { title := some "Bank", username := some "bob", password := some "p1" })])
        "Bank"
      = [{ title := "Bank", username := "alice",
           diff_type := DifferenceType.UsernameDiffers "alice" "bob" }] := by
  have h := matched_key_single_difference
      [("Bank", { title := some "Bank", username := some "alice", password := some "p1" })]
      [("Bank", { title := some "Bank", username := some "bob", password := some "p1" })]
      "Bank"
      { title := some "Bank", username := some "alice", password := some "p1" }
      { title := some "Bank", username := some "bob", password := some "p1" }
      (by unfold WFIndex nodupKeys keysWF; decide)
      (by unfold WFIndex nodupKeys keysWF; decide)
      (by decide) (by decide)
  rw [h]
  decide

/-- Witness for `unmatched_key_single_difference` at a concrete input: the
key "Mail" is only in the first index, so exactly one `OnlyInOne` record. -/
theorem unmatched_key_single_difference_witness :
    recordsFor (compareIndexes
        [("Mail", { title := some "Mail", username := some "carol", password := none })]
        []) "Mail"
      = [{ title := "Mail", username := "carol",
           diff_type := DifferenceType.OnlyInOne }] := by
  have h := (unmatched_key_single_difference
      [("Mail", { title := some "Mail", username := some "carol", password := none })]
      [] "Mail"
      (by unfold WFIndex nodupKeys keysWF; decide)
      (by unfold WFIndex nodupKeys keysWF; decide)).1
      { title := some "Mail", username := some "carol", password := none }
      (by decide) (by decide)
  rw [h]
  rfl

/- ------------------------------------------------------------------ -/
/- Claims C2 and C3: iteration order.                                  -/
/-                                                                     -/
/- `std::collections::HashMap` iterates in an unspecified order that is -/
/- randomized per map instance, so any permutation of the map's         -/
/- bindings is a possible iteration order; rebuilding the two maps for  -/
/- a second run may present the same content in a different order.      -/
/- ------------------------------------------------------------------ -/

theorem lookup_eq_of_perm {m m' : EntryMap} (h : m.Perm m') (hnd : nodupKeys m')
    (k : String) : lookupKey m k = lookupKey m' k := by
  have hnd' : nodupKeys m := by
    unfold nodupKeys at *
    exact ((h.map Prod.fst).symm).nodup hnd
  cases hl : lookupKey m' k with
  | some e =>
    exact lookupKey_eq_some_of_mem hnd' (h.mem_iff.mpr (lookupKey_some_mem hl))
  | none =>
    rw [lookupKey_eq_none_iff] at hl ⊢
    intro p hp
    exact hl p (h.subset hp)

/-- Claim C2 counterexample: the order in which the first loop emits its
records is not a function of the first tree (hence not of its traversal
order).  Both association lists below are permutations of the index built
from the same tree — both are possible `HashMap` iteration orders for
it — yet the two comparison outputs are different sequences. -/
theorem step1_order_counterexample :
    ([(("A" : String), ({ title := some "A", username := none, password := none } : Entry)),
      ("B", { title := some "B", username := none, password := none })]).Perm
      (collect_all_entries
        (Group.mk [{ title := some "A", username := none, password := none },
                   { title := some "B", username := none, password := none }] []))
    ∧ ([(("B" : String), ({ title := some "B", username := none, password := none } : Entry)),
        ("A", { title := some "A", username := none, password := none })]).Perm
      (collect_all_entries
        (Group.mk [{ title := some "A", username := none, password := none },
                   { title := some "B", username := none, password := none }] []))
    ∧ compareIndexes
        [("A", { title := some "A", username := none, password := none }),
         ("B", { title := some "B", username := none, password := none })] []
      ≠ compareIndexes
        [("B", { title := some "B", username := none, password := none }),
         ("A", { title := some "A", username := none, password := none })] [] := by
  refine ⟨by decide, by decide, by decide⟩

/-- Claim C2 (amended): for every pair of indexes, in whatever iteration
order the two hash maps present them, the output of compare is the step-1
records (one pass over the first index, emitted in the first index's own
iteration order) followed by the step-2 records (one pass over the second
index, in its own iteration order); no step-1 record is `OnlyInTwo` and
every step-2 record is `OnlyInTwo`, so every `OnlyInTwo` record comes after
every record produced from the first index's keys.  The step-1 order is a
function of the first index's iteration order — which the hash map does not
guarantee to follow the tree's traversal order (see the counterexample). -/
theorem compare_output_block_structure (ix1 ix2 : EntryMap) :
    compareIndexes ix1 ix2
        = ix1.filterMap (check1 ix2) ++ ix2.filterMap (check2 ix1)
    ∧ (∀ d ∈ ix1.filterMap (check1 ix2), d.diff_type ≠ DifferenceType.OnlyInTwo)
    ∧ (∀ d ∈ ix2.filterMap (check2 ix1), d.diff_type = DifferenceType.OnlyInTwo) := by
  refine ⟨compareIndexes_eq ix1 ix2, ?_, ?_⟩
  · intro d hd
    obtain ⟨p, hp, hc⟩ := List.mem_filterMap.mp hd
    exact check1_not_onlyInTwo hc
  · intro d hd
    obtain ⟨p, hp, hc⟩ := List.mem_filterMap.mp hd
    exact (check2_spec hc).2

/-- Witness for `compare_output_block_structure` at a concrete input: one
key only in the first index and one key only in the second. -/
theorem compare_output_block_structure_witness :
    compareIndexes
        [("A", { title := some "A", username := some "u", password := none })]
        [("C", { title := some "C", username := some "v", password := none })]
      = ([("A", { title := some "A", username := some "u", password := none })].filterMap
          (check1 [("C", { title := some "C", username := some "v", password := none })]))
        ++ ([("C", { title := some "C", username := some "v", password := none })].filterMap
          (check2 [("A", { title := some "A", username := some "u", password := none })]))
    ∧ ({ title := "C", username := "v", diff_type := DifferenceType.OnlyInTwo }
        : DifferenceInfo).diff_type = DifferenceType.OnlyInTwo := by
  have h := compare_output_block_structure
      [("A", { title := some "A", username := some "u", password := none })]
      [("C", { title := some "C", username := some "v", password := none })]
  exact ⟨h.1, h.2.2 _ (by decide)⟩

/-- Claim C3 counterexample: running the pipeline twice on unchanged trees
need not yield identical output sequences, because the two runs rebuild the
hash maps and the hash map may present the same content in a different
iteration order (the order is randomized per map instance).  The canonical
index of the tree below and a permutation of it — both possible iteration
orders of the same rebuilt map — give different output sequences, so the
output is not a deterministic function of the two input trees alone. -/
theorem pipeline_rerun_counterexample :
    ((collect_all_entries
        (Group.mk [{ title := some "C", username := none, password := none },
                   { title := some "D", username := none, password := none }] []))).Perm
      [(("D" : String), ({ title := some "D", username := none, password := none } : Entry)),
       ("C", { title := some "C", username := none, password := none })]
    ∧ compareIndexes
        (collect_all_entries
          (Group.mk [{ title := some "C", username := none, password := none },
                     { title := some "D", username := none, password := none }] [])) []
      ≠ compareIndexes
        [("D", { title := some "D", username := none, password := none }),
         ("C", { title := some "C", username := none, password := none })] [] := by
  refine ⟨by decide, by decide⟩

/-- Claim C3 (amended): the pipeline is a deterministic function of the two
trees *and* of the hash maps' iteration orders.  Across two runs on the
same unchanged trees the iteration orders may differ, in which case the two
outputs are permutations of each other (the same multiset of differences);
when the iteration orders coincide the outputs are identical. -/
theorem compare_rerun_perm (T1 T2 : Group) (ix1 ix2 ix1' ix2' : EntryMap)
    (h1 : ix1.Perm (collect_all_entries T1)) (h2 : ix2.Perm (collect_all_entries T2))
    (h1' : ix1'.Perm (collect_all_entries T1)) (h2' : ix2'.Perm (collect_all_entries T2)) :
    (compareIndexes ix1 ix2).Perm (compareIndexes ix1' ix2') := by
  have nd1 := (collect_spec T1).1
  have nd2 := (collect_spec T2).1
  have hlook2 : ∀ k, lookupKey ix2 k = lookupKey ix2' k := by
    intro k
    rw [lookup_eq_of_perm h2 nd2, lookup_eq_of_perm h2' nd2]
  have hcheck1 : check1 ix2 = check1 ix2' := by
    funext p
    unfold check1
    rw [hlook2 p.1]
  have hcont : ∀ k, containsKey ix1 k = containsKey ix1' k := by
    intro k
    rw [containsKey_eq_isSome, containsKey_eq_isSome,
        lookup_eq_of_perm h1 nd1, lookup_eq_of_perm h1' nd1]
  have hcheck2 : check2 ix1 = check2 ix1' := by
    funext p
    unfold check2
    rw [hcont p.1]
  rw [compareIndexes_eq, compareIndexes_eq, hcheck1, hcheck2]
  exact List.Perm.append (List.Perm.filterMap _ (h1.trans h1'.symm))
    (List.Perm.filterMap _ (h2.trans h2'.symm))

/-- Witness for `compare_rerun_perm` at concrete trees: the two runs see the
same rebuilt indexes in different orders and produce permuted outputs. -/
theorem compare_rerun_perm_witness :
    (compareIndexes
        [("E", { title := some "E", username := none, password := none }),
         ("F", { title := some "F", username := none, password := none })] []).Perm
      (compareIndexes
        [("F", { title := some "F", username := none, password := none }),
         ("E", { title := some "E", username := none, password := none })] []) :=
  compare_rerun_perm
    (Group.mk [{ title := some "E", username := none, password := none },
               { title := some "F", username := none, password := none }] [])
    (Group.mk [] [])
    [("E", { title := some "E", username := none, password := none }),
     ("F", { title := some "F", username := none, password := none })]
    []
    [("F", { title := some "F", username := none, password := none }),
     ("E", { title := some "E", username := none, password := none })]
    []
    (by decide) (by decide) (by decide) (by decide)

/- ------------------------------------------------------------------ -/
/- Claim C9: no password payload in the output.                        -/
/- ------------------------------------------------------------------ -/

theorem lookupKey_cons_of_eq {p : String × Entry} {t : EntryMap} {k : String}
    (h : (p.1 == k) = true) : lookupKey (p :: t) k = some p.2 := by
  unfold lookupKey
  simp [List.find?_cons, h]

theorem lookupKey_cons_of_ne {p : String × Entry} {t : EntryMap} {k : String}
    (h : (p.1 == k) = false) : lookupKey (p :: t) k = lookupKey t k := by
  unfold lookupKey
  simp [List.find?_cons, h]

theorem forall2_map_fst {m m' : EntryMap} (h : titlesUsernamesAgree m m') :
    m.map Prod.fst = m'.map Prod.fst := by
  induction h with
  | nil => rfl
  | cons hr _ ih => rw [List.map_cons, List.map_cons, hr.1, ih]

theorem forall2_lookup {m m' : EntryMap} (h : titlesUsernamesAgree m m') (k : String) :
    (lookupKey m k = none ∧ lookupKey m' k = none)
    ∨ (∃ e e', lookupKey m k = some e ∧ lookupKey m' k = some e'
        ∧ e.title = e'.title ∧ e.username = e'.username) := by
  induction h with
  | nil => exact Or.inl ⟨rfl, rfl⟩
  | @cons p q t t' hr ht ih =>
    obtain ⟨hk, hti, hu⟩ := hr
    by_cases hpk : p.1 = k
    · refine Or.inr ⟨p.2, q.2, ?_, ?_, hti, hu⟩
      · exact lookupKey_cons_of_eq (by simp [hpk])
      · exact lookupKey_cons_of_eq (by simp [← hk, hpk])
    · have hp : (p.1 == k) = false := by simp [hpk]
      have hq : (q.1 == k) = false := by simp [← hk, hpk]
      rw [lookupKey_cons_of_ne hp, lookupKey_cons_of_ne hq]
      exact ih

theorem filterMap_congr_forall2 {R : (String × Entry) → (String × Entry) → Prop}
    {l l' : EntryMap} (h : List.Forall₂ R l l')
    (f g : String × Entry → Option DifferenceInfo)
    (hfg : ∀ p q, p ∈ l → q ∈ l' → R p q → f p = g q) :
    l.filterMap f = l'.filterMap g := by
  induction h with
  | nil => rfl
  | @cons p q t t' hr ht ih =>
    rw [List.filterMap_cons, List.filterMap_cons]
    rw [hfg p q (List.mem_cons_self _ _) (List.mem_cons_self _ _) hr]
    rw [ih (fun a b ha hb hr' =>
      hfg a b (List.mem_cons_of_mem _ ha) (List.mem_cons_of_mem _ hb) hr')]

theorem check1_eq_of_some {entries2 : EntryMap} {p : String × Entry} {e2 : Entry}
    (h : lookupKey entries2 p.1 = some e2) :
    check1 entries2 p =
      if p.2.username.getD "" ≠ e2.username.getD "" then
        some { title := entryKey p.2, username := p.2.username.getD "",
               diff_type := DifferenceType.UsernameDiffers (p.2.username.getD "")
                 (e2.username.getD "") }
      else if p.2.password.getD "" ≠ e2.password.getD "" then
        some { title := entryKey p.2, username := p.2.username.getD "",
               diff_type := DifferenceType.PasswordDiffers }
      else none := by
  unfold check1
  rw [h]

theorem check1_eq_of_none {entries2 : EntryMap} {p : String × Entry}
    (h : lookupKey entries2 p.1 = none) :
    check1 entries2 p
      = some { title := entryKey p.2, username := p.2.username.getD "",
               diff_type := DifferenceType.OnlyInOne } := by
  unfold check1
  rw [h]

/-- Claim C9: no Difference record carries any password value.  The
`PasswordDiffers` variant has no payload, and the output of the comparison
depends on the password fields only through the per-matched-key boolean of
whether the two passwords (empty-string fallback) are equal: two runs whose
indexes agree on keys, titles and usernames — passwords arbitrary — and
agree on that equality boolean for every matched key produce identical
output sequences. -/
theorem compare_no_password_leak (ix1 ix2 ix1' ix2' : EntryMap)
    (hnd1 : nodupKeys ix1)
    (ha1 : titlesUsernamesAgree ix1 ix1') (ha2 : titlesUsernamesAgree ix2 ix2')
    (hpw : ∀ k e1 e2 e1' e2',
      lookupKey ix1 k = some e1 → lookupKey ix2 k = some e2 →
      lookupKey ix1' k = some e1' → lookupKey ix2' k = some e2' →
      ((e1.password.getD "" = e2.password.getD "")
        ↔ (e1'.password.getD "" = e2'.password.getD ""))) :
    compareIndexes ix1 ix2 = compareIndexes ix1' ix2' := by
  have hnd1' : nodupKeys ix1' := by
    unfold nodupKeys at *
    rw [← forall2_map_fst ha1]
    exact hnd1
  have hblock1 : ix1.filterMap (check1 ix2) = ix1'.filterMap (check1 ix2') := by
    apply filterMap_congr_forall2 ha1
    intro p q hp hq hr
    obtain ⟨hk, hti, hu⟩ := hr
    have ht1 : entryKey p.2 = entryKey q.2 := by
      unfold entryKey
      rw [hti]
    rcases forall2_lookup ha2 p.1 with ⟨hn, hn'⟩ | ⟨e2, e2', hs, hs', hsti, hsu⟩
    · rw [check1_eq_of_none hn, check1_eq_of_none (show lookupKey ix2' q.1 = none by rw [← hk]; exact hn')]
      rw [ht1, hu]
    · have hlq : lookupKey ix2' q.1 = some e2' := by
        rw [← hk]
        exact hs'
      rw [check1_eq_of_some hs, check1_eq_of_some hlq]
      have hp2 : lookupKey ix1 p.1 = some p.2 :=
        lookupKey_eq_some_of_mem hnd1 (by rw [Prod.mk.eta]; exact hp)
      have hq2 : lookupKey ix1' p.1 = some q.2 := by
        rw [hk]
        exact lookupKey_eq_some_of_mem hnd1' (by rw [Prod.mk.eta]; exact hq)
      have hiff := hpw p.1 p.2 e2 q.2 e2' hp2 hs hq2 hs'
      rw [ht1, hu, hsu]
      by_cases hcu : q.2.username.getD "" = e2'.username.getD ""
      · rw [if_neg (not_not_intro hcu), if_neg (not_not_intro hcu)]
        by_cases hpp : p.2.password.getD "" = e2.password.getD ""
        · rw [if_neg (not_not_intro hpp), if_neg (not_not_intro (hiff.mp hpp))]
        · rw [if_pos hpp, if_pos (fun hqq => hpp (hiff.mpr hqq))]
      · rw [if_pos hcu, if_pos hcu]
  have hblock2 : ix2.filterMap (check2 ix1) = ix2'.filterMap (check2 ix1') := by
    apply filterMap_congr_forall2 ha2
    intro p q hp hq hr
    obtain ⟨hk, hti, hu⟩ := hr
    have hcq : containsKey ix1 p.1 = containsKey ix1' q.1 := by
      rw [← hk, containsKey_eq_isSome, containsKey_eq_isSome]
      rcases forall2_lookup ha1 p.1 with ⟨hn, hn'⟩ | ⟨e, e', hs, hs', _, _⟩
      · rw [hn, hn']
      · rw [hs, hs']
        rfl
    unfold check2
    rw [hcq]
    cases hb : containsKey ix1' q.1
    · rw [if_neg Bool.false_ne_true, if_neg Bool.false_ne_true]
      have ht1 : entryKey p.2 = entryKey q.2 := by
        unfold entryKey
        rw [hti]
      rw [ht1, hu]
    · rw [if_pos rfl, if_pos rfl]
  rw [compareIndexes_eq, compareIndexes_eq, hblock1, hblock2]

/-- Witness for `compare_no_password_leak`: two runs on the same key, same
usernames, with completely different password values but the same
inequality pattern, produce identical output. -/
theorem compare_no_password_leak_witness :
    compareIndexes
        [("A", { title := some "A", username := some "u", password := some "p1" })]
        [("A", { title := some "A", username := some "u", password := some "p2" })]
      = compareIndexes
        [("A", { title := some "A", username := some "u", password := some "x9" })]
        [("A", { title := some "A", username := some "u", password := some "y7" })] := by
  apply compare_no_password_leak
  · unfold nodupKeys
    decide
  · exact List.Forall₂.cons (by refine ⟨rfl, rfl, rfl⟩) List.Forall₂.nil
  · exact List.Forall₂.cons (by refine ⟨rfl, rfl, rfl⟩) List.Forall₂.nil
  · intro k e1 e2 e1' e2' h1 h2 h3 h4
    by_cases hk : ("A" : String) = k
    · subst hk
      have he1 : e1 = { title := some "A", username := some "u", password := some "p1" } := by
        rw [lookupKey_cons_of_eq (by decide)] at h1
        exact (Option.some_inj.mp h1).symm
      have he2 : e2 = { title := some "A", username := some "u", password := some "p2" } := by
        rw [lookupKey_cons_of_eq (by decide)] at h2
        exact (Option.some_inj.mp h2).symm
      have he3 : e1' = { title := some "A", username := some "u", password := some "x9" } := by
        rw [lookupKey_cons_of_eq (by decide)] at h3
        exact (Option.some_inj.mp h3).symm
      have he4 : e2' = { title := some "A", username := some "u", password := some "y7" } := by
        rw [lookupKey_cons_of_eq (by decide)] at h4
        exact (Option.some_inj.mp h4).symm
      rw [he1, he2, he3, he4]
      decide
    · exfalso
      rw [lookupKey_cons_of_ne (by simp [hk]),
          show lookupKey [] k = none from rfl] at h1
      cases h1

/- ------------------------------------------------------------------ -/
/- The spec's six scenarios, checked against the embedding.            -/
/- ------------------------------------------------------------------ -/

example : compare_databases
    ⟨Group.mk [{ title := some "Bank", username := some "alice", password := some "p1" }] []⟩
    ⟨Group.mk [{ title := some "Bank", username := some "alice", password := some "p1" }] []⟩
  = [] := by decide

example : compare_databases
    ⟨Group.mk [{ title := some "Bank", username := some "alice", password := some "p1" }] []⟩
    ⟨Group.mk [{ title := some "Bank", username := some "bob", password := some "p1" }] []⟩
  = [{ title := "Bank", username := "alice",
       diff_type := DifferenceType.UsernameDiffers "alice" "bob" }] := by decide

example : compare_databases
    ⟨Group.mk [{ title := some "Bank", username := some "alice", password := some "p1" }] []⟩
    ⟨Group.mk [{ title := some "Bank", username := some "alice", password := some "p2" }] []⟩
  = [{ title := "Bank", username := "alice",
       diff_type := DifferenceType.PasswordDiffers }] := by decide

example : compare_databases
    ⟨Group.mk [{ title := some "Mail", username := none, password := none }] []⟩
    ⟨Group.mk [] []⟩
  = [{ title := "Mail", username := "", diff_type := DifferenceType.OnlyInOne }] := by decide

example : compare_databases
    ⟨Group.mk [] [Group.mk [{ title := some "Old", username := none, password := none }] []]⟩
    ⟨Group.mk [{ title := some "Old", username := some "x", password := none }] []⟩
  = [{ title := "Old", username := "",
       diff_type := DifferenceType.UsernameDiffers "" "x" }] := by decide

example : collect_all_entries
    (Group.mk [{ title := none, username := some "a", password := none },
               { title := none, username := some "b", password := none }] [])
  = [("(no title)", { title := none, username := some "b", password := none })] := by decide

example : collect_all_entries
    (Group.mk [{ title := some "X", username := some "root", password := none }]
      [Group.mk [{ title := some "X", username := some "child", password := none }] []])
  = [("X", { title := some "X", username := some "child", password := none })] := by decide

end RustPass
